import Mathlib

/-!
Verification of the scaphandre qemu exporter (src/exporters/qemu.rs and
src/lib.rs): a shallow embedding of the recording accumulator (TestCase),
the per-tick attribution sampler (QemuExporter::iteration and its helpers)
and the control-protocol loop (run), together with theorems about the
claims of the specification.

Rust f64 values are modelled by the type F below: exact rationals for
finite values, plus explicit positive/negative infinity and NaN, with
IEEE-754 style propagation for the arithmetic operations the source uses
(addition, multiplication, division).  Rounding is not modelled; signed
zero is not modelled.
-/

/-- Model of an f64 value: a finite rational, an infinity, or NaN. -/
inductive F : Type where
  | fin : ℚ → F
  | posInf : F
  | negInf : F
  | nan : F
deriving DecidableEq, Repr

/-- IEEE-style addition on modelled f64 values. -/
def F.add : F → F → F
  | F.nan, _ => F.nan
  | _, F.nan => F.nan
  | F.posInf, F.negInf => F.nan
  | F.negInf, F.posInf => F.nan
  | F.posInf, _ => F.posInf
  | _, F.posInf => F.posInf
  | F.negInf, _ => F.negInf
  | _, F.negInf => F.negInf
  | F.fin a, F.fin b => F.fin (a + b)

/-- IEEE-style multiplication on modelled f64 values. -/
def F.mul : F → F → F
  | F.nan, _ => F.nan
  | _, F.nan => F.nan
  | F.fin a, F.fin b => F.fin (a * b)
  | F.fin a, F.posInf => if a = 0 then F.nan else if 0 < a then F.posInf else F.negInf
  | F.posInf, F.fin a => if a = 0 then F.nan else if 0 < a then F.posInf else F.negInf
  | F.fin a, F.negInf => if a = 0 then F.nan else if 0 < a then F.negInf else F.posInf
  | F.negInf, F.fin a => if a = 0 then F.nan else if 0 < a then F.negInf else F.posInf
  | F.posInf, F.posInf => F.posInf
  | F.posInf, F.negInf => F.negInf
  | F.negInf, F.posInf => F.negInf
  | F.negInf, F.negInf => F.posInf

/-- IEEE-style division on modelled f64 values: a nonzero finite value
divided by zero is an infinity, zero divided by zero is NaN. -/
def F.div : F → F → F
  | F.nan, _ => F.nan
  | _, F.nan => F.nan
  | F.fin a, F.fin b =>
      if b = 0 then (if a = 0 then F.nan else if 0 < a then F.posInf else F.negInf)
      else F.fin (a / b)
  | F.fin _, F.posInf => F.fin 0
  | F.fin _, F.negInf => F.fin 0
  | F.posInf, F.fin b => if 0 ≤ b then F.posInf else F.negInf
  | F.negInf, F.fin b => if 0 ≤ b then F.negInf else F.posInf
  | F.posInf, F.posInf => F.nan
  | F.posInf, F.negInf => F.nan
  | F.negInf, F.posInf => F.nan
  | F.negInf, F.negInf => F.nan

/-- Sum of a list of modelled f64 values, folding from 0.0 on the left,
as the accumulation loops of the source do. -/
def sumF (l : List F) : F := l.foldl F.add (F.fin 0)

/-- Boolean test that the list pat is a leading segment of s
(Rust str::starts_with on the character level). -/
def startsW : List Char → List Char → Bool
  | [], _ => true
  | _ :: _, [] => false
  | p :: ps, c :: cs => (p == c) && startsW ps cs

/-- Boolean substring containment on character lists
(Rust str::contains). -/
def containsSub (pat : List Char) : List Char → Bool
  | [] => pat.isEmpty
  | c :: rest => startsW pat (c :: rest) || containsSub pat rest

/-- Auxiliary loop of splitChar: acc holds the characters of the current
piece in reverse order. -/
def splitCharAux (c : Char) : List Char → List Char → List (List Char)
  | [], acc => [acc.reverse]
  | x :: xs, acc =>
      if x = c then acc.reverse :: splitCharAux c xs []
      else splitCharAux c xs (x :: acc)

/-- Split a character list at every occurrence of c, keeping empty pieces
(Rust str::split with a char pattern). -/
def splitChar (c : Char) (s : List Char) : List (List Char) := splitCharAux c s []

/-- One historical sample of a process, as exposed to the exporter by the
process tracker.  Modelled from the spec: the tracker itself is an
external collaborator (spec section 6); a sample carries the cumulative
CPU time in jiffies (total_time_jiffies) and the command line tokens
(process.cmdline(), which can fail, hence Option). -/
structure ProcessRecord where
  jiffies : Nat
  cmdline : Option (List String)
deriving DecidableEq, Inhabited, Repr

/-- The host-wide energy record diff returned by get_records_diff.
Modelled from the spec: the counter subsystem is external; the value
field is the microjoule magnitude that the source obtains by parsing the
decimal string of the record (via parse and unwrap), so it is held
here already parsed. -/
structure Record where
  value : ℚ
deriving DecidableEq, Repr

/-- One directory entry of the thermal base directory, as read_temp sees
it: its file name, and the parsed content of its temp file when
fs::read_to_string succeeds there (none models a failed read). -/
structure ThermalEntry where
  name : String
  temp : Option ℚ
deriving DecidableEq, Repr

/-- The external inputs one call of QemuExporter::iteration consumes.
Modelled from the spec: uj_diff is topology.get_records_diff(),
stat_diff is the total_time_jiffies() of topology.get_stats_diff(),
processes is proc_tracker.get_alive_processes() (newest-first sample
histories), temp_input is the readable content of /sys/class/thermal
(none when the directory cannot be enumerated). -/
structure TopoState where
  uj_diff : Option Record
  stat_diff : Option Nat
  processes : List (List ProcessRecord)
  temp_input : Option (List ThermalEntry)
deriving DecidableEq, Repr

/-- The recording accumulator (struct TestCase of qemu.rs).  The HashMap
from vm name to measurement vector is modelled as an association list;
Durations since the epoch are modelled as rationals (seconds). -/
structure TestCase where
  test_name : String
  vms : List (String × List F)
  temps : List F
  start_recording : ℚ
  end_recording : ℚ
  store_base_path : String
deriving DecidableEq, Repr

/-- TestCase::add_temp_measurement: push the sample onto temps. -/
def add_temp_measurement (tc : TestCase) (temperature : F) : TestCase :=
  { tc with temps := tc.temps ++ [temperature] }

/-- TestCase::add_energy: append to the series of the vm, creating the series
on first occurrence. -/
def add_energy (tc : TestCase) (vm_name : String) (uj : F) : TestCase :=
  if (tc.vms.find? (fun p => p.1 == vm_name)).isSome then
    { tc with
        vms := tc.vms.map (fun p => if p.1 == vm_name then (p.1, p.2 ++ [uj]) else p) }
  else
    { tc with vms := tc.vms ++ [(vm_name, [uj])] }

/-- TestCase::get_avg_temp: sum of temps divided by temps.len() as f64.
The source performs the division unconditionally, so an empty series
yields 0.0 / 0.0. -/
def get_avg_temp (tc : TestCase) : F :=
  F.div (sumF tc.temps) (F.fin (tc.temps.length : ℚ))

/-- TestCase::get_test_duration: end_recording - start_recording.
Rust Duration subtraction panics when the result would be negative;
the panic is modelled as none. -/
def get_test_duration (tc : TestCase) : Option ℚ :=
  if tc.start_recording ≤ tc.end_recording then
    some (tc.end_recording - tc.start_recording)
  else none

/-- Association-list lookup standing for HashMap::get on vms. -/
def lookupVm (vms : List (String × List F)) (vm_name : String) : Option (List F) :=
  match vms.find? (fun p => p.1 == vm_name) with
  | some p => some p.2
  | none => none

/-- TestCase::get_watt_consumed_by_vm: sum of the series of the vm divided by
the test duration in seconds.  The source unwraps the HashMap lookup
(panic when the vm is unknown, modelled as none) and calls
get_test_duration (whose panic is also propagated as none). -/
def get_watt_consumed_by_vm (tc : TestCase) (vm_name : String) : Option F :=
  match lookupVm tc.vms vm_name with
  | some entries =>
      match get_test_duration tc with
      | some d => some (F.div (sumF entries) (F.fin d))
      | none => none
  | none => none

/-- QemuExporter::get_vm_name_from_cmdline, inner extraction: split the
token at every equals sign, discard the first piece, take the next piece,
and cut it at the first comma. -/
def vmNameFromToken (elmt : String) : String :=
  String.mk ((splitChar ',' ((splitChar '=' elmt.toList).getD 1 [])).headD [])

/-- QemuExporter::get_vm_name_from_cmdline: scan the command-line tokens
for the first one starting with guest= and extract the vm name from it;
return the empty string when no token matches. -/
def get_vm_name_from_cmdline : List String → String
  | [] => ""
  | elmt :: rest =>
      if startsW ("guest=".toList) elmt.toList then vmNameFromToken elmt
      else get_vm_name_from_cmdline rest

/-- QemuExporter::filter_qemu_vm_processes: keep the non-empty process
histories whose command line of the first record is readable and has a token
containing qemu-system. -/
def filter_qemu_vm_processes (processes : List (List ProcessRecord)) :
    List (List ProcessRecord) :=
  processes.filter (fun vecp =>
    match vecp.head? with
    | some pr =>
        match pr.cmdline with
        | some cmdline => cmdline.any (fun x => containsSub ("qemu-system".toList) x.toList)
        | none => false
    | none => false)

/-- QemuExporter::read_temp: when the thermal directory is enumerable,
fold over its entries skipping names containing cooling and unreadable
temp files, accumulating a sum and a count, and return sum / count as
f64 (0.0 / 0.0 when nothing was read); when the directory cannot be
enumerated, log an error and return 0.0.  readTempStep is the loop body:
skip cooling devices and failed reads, otherwise accumulate the value
and bump the count. -/
def readTempStep (acc : ℚ × Nat) (sensor : ThermalEntry) : ℚ × Nat :=
  if containsSub ("cooling".toList) sensor.name.toList then acc
  else
    match sensor.temp with
    | some temperature => (acc.1 + temperature, acc.2 + 1)
    | none => acc

def read_temp (input : Option (List ThermalEntry)) : F :=
  match input with
  | some thermal_sensors =>
      let r := thermal_sensors.foldl readTempStep (0, 0)
      F.div (F.fin r.1) (F.fin (r.2 : ℚ))
  | none => F.fin 0

/-- The add_energy arguments one process history qp produces inside the
loop of QemuExporter::iteration, or none when the guards of the source skip
it: the qp.len() > 2 test, and the presence of the host stat diff.  The
vm name comes from the command line of the newest record (unwrap is guarded
by the preceding filter), time_pdiff from the two newest records, and
the energy value is ratio * host energy, computed in f64. -/
def shareOf (topo_rec_uj : Record) (topo_stat_diff : Option Nat)
    (qp : List ProcessRecord) : Option (String × F) :=
  if 2 < qp.length then
    match qp with
    | last :: previous :: _ =>
        let vm_name := get_vm_name_from_cmdline (last.cmdline.getD [])
        let time_pdiff : Nat := last.jiffies - previous.jiffies
        match topo_stat_diff with
        | some time_tdiff =>
            let ratio := F.div (F.fin (time_pdiff : ℚ)) (F.fin (time_tdiff : ℚ))
            some (vm_name, F.mul ratio (F.fin topo_rec_uj.value))
        | none => none
    | _ => none
  else none

/-- Apply one produced share to the accumulator: call add_energy when
the guards of the loop body produced arguments for it, leave the test
case unchanged otherwise. -/
def applyShare (acc : TestCase) (s : Option (String × F)) : TestCase :=
  match s with
  | some p => add_energy acc p.1 p.2
  | none => acc

/-- QemuExporter::iteration: when the energy record diff is present,
walk the filtered qemu processes adding each produced energy share to
the test case, then append one temperature sample; when the energy
record diff is absent, do nothing at all. -/
def iteration (topo : TopoState) (tc : TestCase) : TestCase :=
  match topo.uj_diff with
  | some topo_rec_uj =>
      let qemu_processes := filter_qemu_vm_processes topo.processes
      let tc1 := qemu_processes.foldl
        (fun acc qp => applyShare acc (shareOf topo_rec_uj topo.stat_diff qp)) tc
      add_temp_measurement tc1 (read_temp topo.temp_input)
  | none => tc

/-- The list of (vm name, energy share) pairs one iteration passes to
add_energy, in order. -/
def tick_shares (topo : TopoState) : List (String × F) :=
  match topo.uj_diff with
  | some r => (filter_qemu_vm_processes topo.processes).filterMap (shareOf r topo.stat_diff)
  | none => []

/-- The filtered process histories that pass the qp.len() > 2 guard of
the iteration loop, i.e. those that actually contribute a share. -/
def contributors (topo : TopoState) : List (List ProcessRecord) :=
  (filter_qemu_vm_processes topo.processes).filter (fun qp => 2 < qp.length)

/-- The vm name a contributing history resolves to: parsed from the
command line of the newest record. -/
def vmOf (qp : List ProcessRecord) : String :=
  get_vm_name_from_cmdline ((qp.headD default).cmdline.getD [])

/-- The guest CPU-time delta of a contributing history: newest cumulative
jiffies minus the immediately previous cumulative jiffies. -/
def guestDelta (qp : List ProcessRecord) : Nat :=
  (qp.headD default).jiffies - ((qp.drop 1).headD default).jiffies

/-- Events the control loop of lib.rs run writes back to the client:
the ack reply, the recording window run by the exporter, the fin reply. -/
inductive Out : Type where
  | ack : Out
  | record : Out
  | fin : Out
deriving DecidableEq, Repr

/-- How a session of the control loop of lib.rs run ends. -/
inductive Outcome : Type where
  | sessionEnded : Outcome
  | processPanic : Outcome
deriving DecidableEq, Repr

/-- The control loop of lib.rs run for one accepted connection, over the
list of lines the blocking reads deliver (each line keeps its trailing
newline; an exhausted list stands for end of stream, where read_line
yields an empty string that matches no token, reaching the panic arm).
A line equal to finished recording breaks out of the loop and the
session ends normally; startTestReq writes ack, runs one recording
window, writes fin and loops; any other line hits panic, which aborts
the whole process. -/
def runSession : List String → List Out × Outcome
  | [] => ([], Outcome.processPanic)
  | line :: rest =>
      if line = "finished recording\n" then ([], Outcome.sessionEnded)
      else if line = "startTestReq\n" then
        let r := runSession rest
        (Out.ack :: Out.record :: Out.fin :: r.1, r.2)
      else ([], Outcome.processPanic)

/-- Stated from the words of claim C9 for comparison with the source
function: the substring of a token between the first equals sign and the
first following comma. -/
def specClaimGuestName (t : List Char) : List Char :=
  ((t.dropWhile (fun c => !(c == '='))).drop 1).takeWhile (fun c => !(c == ','))

/-! Helper lemmas. -/

theorem foldl_applyShare {α : Type} (f : α → Option (String × F)) :
    ∀ (l : List α) (tc : TestCase),
      l.foldl (fun acc x => applyShare acc (f x)) tc
        = (l.filterMap f).foldl (fun acc s => add_energy acc s.1 s.2) tc := by
  intro l
  induction l with
  | nil => intro tc; rfl
  | cons a l ih =>
      intro tc
      rw [List.filterMap_cons]
      cases hfa : f a with
      | none =>
          rw [List.foldl_cons, hfa]
          exact ih tc
      | some b =>
          rw [List.foldl_cons, hfa, List.foldl_cons]
          exact ih (add_energy tc b.1 b.2)

theorem iteration_eq_tick_shares (topo : TopoState) (r : Record)
    (h : topo.uj_diff = some r) (tc : TestCase) :
    iteration topo tc
      = add_temp_measurement
          ((tick_shares topo).foldl (fun acc s => add_energy acc s.1 s.2) tc)
          (read_temp topo.temp_input) := by
  unfold iteration tick_shares
  rw [h]
  simp only [foldl_applyShare]

theorem add_energy_temps (tc : TestCase) (n : String) (v : F) :
    (add_energy tc n v).temps = tc.temps := by
  unfold add_energy
  split <;> rfl

theorem foldl_add_energy_temps (l : List (String × F)) :
    ∀ tc : TestCase,
      (l.foldl (fun acc s => add_energy acc s.1 s.2) tc).temps = tc.temps := by
  induction l with
  | nil => intro tc; rfl
  | cons a l ih => intro tc; rw [List.foldl_cons, ih, add_energy_temps]

theorem shareOf_stat_none (r : Record) (qp : List ProcessRecord) :
    shareOf r none qp = none := by
  unfold shareOf
  split
  · cases qp with
    | nil => rfl
    | cons a t =>
        cases t with
        | nil => rfl
        | cons b t' => rfl
  · rfl

theorem shareOf_stat_some (r : Record) (T : Nat) (hT : (T : ℚ) ≠ 0)
    (qp : List ProcessRecord) :
    shareOf r (some T) qp
      = if 2 < qp.length then
          some (vmOf qp, F.fin ((guestDelta qp : ℚ) / (T : ℚ) * r.value))
        else none := by
  unfold shareOf
  by_cases h : 2 < qp.length
  · rw [if_pos h, if_pos h]
    cases qp with
    | nil => simp at h
    | cons a t =>
        cases t with
        | nil => simp at h
        | cons b t' =>
            simp only [vmOf, guestDelta, List.headD_cons, List.drop_succ_cons,
              List.drop_zero, F.div, F.mul, if_neg hT]
  · rw [if_neg h, if_neg h]

theorem filterMap_shareOf (r : Record) (T : Nat) (hT : (T : ℚ) ≠ 0) :
    ∀ l : List (List ProcessRecord),
      l.filterMap (shareOf r (some T))
        = (l.filter (fun qp => 2 < qp.length)).map
            (fun qp => (vmOf qp, F.fin ((guestDelta qp : ℚ) / (T : ℚ) * r.value))) := by
  intro l
  induction l with
  | nil => rfl
  | cons qp l ih =>
      rw [List.filterMap_cons, List.filter_cons, shareOf_stat_some r T hT qp]
      by_cases h : 2 < qp.length
      · rw [if_pos h]
        simp [h, ih]
      · rw [if_neg h]
        simp [h, ih]

theorem foldl_add_fin (l : List ℚ) :
    ∀ q : ℚ, List.foldl F.add (F.fin q) (l.map F.fin) = F.fin (q + l.sum) := by
  induction l with
  | nil => intro q; simp [List.sum_nil]
  | cons a l ih =>
      intro q
      rw [List.map_cons, List.foldl_cons]
      show List.foldl F.add (F.fin (q + a)) (l.map F.fin) = F.fin (q + (a :: l).sum)
      rw [ih (q + a), List.sum_cons]
      ring_nf

theorem sum_map_div_mul (T E : ℚ) :
    ∀ l : List ℕ, (l.map (fun p : ℕ => (p : ℚ) / T * E)).sum = ((l.sum : ℕ) : ℚ) / T * E := by
  intro l
  induction l with
  | nil => simp
  | cons a l ih =>
      rw [List.map_cons, List.sum_cons, List.sum_cons, ih]
      push_cast
      ring

theorem div_mul_le_of_le (S T E : ℚ) (hT : 0 < T) (hE : 0 ≤ E) (h : S ≤ T) :
    S / T * E ≤ E := by
  have h1 : S / T ≤ 1 := (div_le_one hT).mpr h
  calc S / T * E ≤ 1 * E := mul_le_mul_of_nonneg_right h1 hE
  _ = E := one_mul E

theorem foldl_readTempStep_skip :
    ∀ (l : List ThermalEntry) (acc : ℚ × Nat),
      (∀ e ∈ l, containsSub ("cooling".toList) e.name.toList = true ∨ e.temp = none) →
      l.foldl readTempStep acc = acc := by
  intro l
  induction l with
  | nil => intro acc _; rfl
  | cons e l ih =>
      intro acc h
      rw [List.foldl_cons]
      have he : readTempStep acc e = acc := by
        unfold readTempStep
        rcases h e (List.mem_cons_self e l) with hc | hn
        · rw [if_pos hc]
        · by_cases hc2 : containsSub ("cooling".toList) e.name.toList = true
          · rw [if_pos hc2]
          · rw [if_neg hc2, hn]
      rw [he]
      exact ih acc (fun x hx => h x (List.mem_cons_of_mem e hx))

theorem startsW_append (pat : List Char) : ∀ t : List Char, startsW pat (pat ++ t) = true := by
  induction pat with
  | nil => intro t; rfl
  | cons p ps ih =>
      intro t
      show ((p == p) && startsW ps (ps ++ t)) = true
      rw [ih t]
      simp

theorem splitCharAux_through (c : Char) :
    ∀ (pre rest acc : List Char), (∀ x ∈ pre, x ≠ c) →
      splitCharAux c (pre ++ c :: rest) acc = (acc.reverse ++ pre) :: splitChar c rest := by
  intro pre
  induction pre with
  | nil =>
      intro rest acc _
      show splitCharAux c (c :: rest) acc = (acc.reverse ++ []) :: splitChar c rest
      unfold splitCharAux
      rw [if_pos rfl, List.append_nil]
      rfl
  | cons p ps ih =>
      intro rest acc h
      have hp : p ≠ c := h p (List.mem_cons_self p ps)
      show splitCharAux c (p :: (ps ++ c :: rest)) acc = (acc.reverse ++ p :: ps) :: splitChar c rest
      unfold splitCharAux
      rw [if_neg hp, ih rest (p :: acc) (fun x hx => h x (List.mem_cons_of_mem p hx))]
      rw [List.reverse_cons, List.append_assoc]
      rfl

theorem splitCharAux_headD (c : Char) :
    ∀ (l acc : List Char),
      (splitCharAux c l acc).headD [] = acc.reverse ++ l.takeWhile (fun x => !(x == c)) := by
  intro l
  induction l with
  | nil =>
      intro acc
      show ([acc.reverse].headD []) = acc.reverse ++ [].takeWhile (fun x => !(x == c))
      simp [List.takeWhile]
  | cons x xs ih =>
      intro acc
      unfold splitCharAux
      by_cases hx : x = c
      · rw [if_pos hx]
        have : (x :: xs).takeWhile (fun y => !(y == c)) = [] := by
          rw [List.takeWhile_cons]
          simp [hx]
        rw [this, List.append_nil]
        rfl
      · rw [if_neg hx]
        rw [ih (x :: acc)]
        have : (x :: xs).takeWhile (fun y => !(y == c))
            = x :: xs.takeWhile (fun y => !(y == c)) := by
          rw [List.takeWhile_cons]
          simp [hx]
        rw [this, List.reverse_cons, List.append_assoc]
        rfl

theorem splitChar_headD (c : Char) (l : List Char) :
    (splitChar c l).headD [] = l.takeWhile (fun x => !(x == c)) := by
  unfold splitChar
  rw [splitCharAux_headD]
  rfl

theorem getD_zero_headD (l : List (List Char)) : l.getD 0 [] = l.headD [] := by
  cases l <;> rfl

theorem vmNameFromToken_guest (rest : List Char) :
    vmNameFromToken (String.mk (("guest=".toList) ++ rest))
      = String.mk ((rest.takeWhile (fun ch => !(ch == '='))).takeWhile (fun ch => !(ch == ','))) := by
  unfold vmNameFromToken
  have h1 : (String.mk (("guest=".toList) ++ rest)).toList = ("guest".toList) ++ '=' :: rest := rfl
  rw [h1]
  have h2 : ∀ x ∈ ("guest".toList), x ≠ '=' := by decide
  have h3 : splitChar '=' (("guest".toList) ++ '=' :: rest)
      = ("guest".toList) :: splitChar '=' rest := by
    unfold splitChar
    rw [splitCharAux_through '=' ("guest".toList) rest [] h2]
    rfl
  rw [h3, List.getD_cons_succ, getD_zero_headD, splitChar_headD, splitChar_headD]

theorem get_vm_name_no_guest :
    ∀ toks : List String, (∀ t ∈ toks, startsW ("guest=".toList) t.toList = false) →
      get_vm_name_from_cmdline toks = "" := by
  intro toks
  induction toks with
  | nil => intro _; rfl
  | cons t ts ih =>
      intro h
      unfold get_vm_name_from_cmdline
      rw [h t (List.mem_cons_self t ts)]
      exact ih (fun x hx => h x (List.mem_cons_of_mem t hx))

theorem get_vm_name_guest_token (pres post : List String) (rest : List Char)
    (hpre : ∀ p ∈ pres, startsW ("guest=".toList) p.toList = false) :
    get_vm_name_from_cmdline (pres ++ String.mk (("guest=".toList) ++ rest) :: post)
      = String.mk ((rest.takeWhile (fun ch => !(ch == '='))).takeWhile (fun ch => !(ch == ','))) := by
  induction pres with
  | nil =>
      rw [List.nil_append]
      unfold get_vm_name_from_cmdline
      have hs : startsW ("guest=".toList) (String.mk (("guest=".toList) ++ rest)).toList = true := by
        exact startsW_append ("guest=".toList) rest
      rw [hs]
      exact vmNameFromToken_guest rest
  | cons p ps ih =>
      rw [List.cons_append]
      unfold get_vm_name_from_cmdline
      rw [hpre p (List.mem_cons_self p ps)]
      exact ih (fun x hx => hpre x (List.mem_cons_of_mem p hx))

/-! Concrete fixtures used by witnesses, counterexamples and code-bug
evaluations. -/

/-- A fresh test case, as TestCase::new builds one. -/
def tc0 : TestCase := TestCase.mk ("t") [] [] 0 0 ("p")

/-- A tick input with host time delta zero and one matched guest whose
two newest samples differ by 5 jiffies. -/
def topoZeroT : TopoState :=
  TopoState.mk (some (Record.mk 100)) (some 0)
    [[ProcessRecord.mk 9 (some [("qemu-system-x86"), ("-name"), ("guest=vmA")]),
      ProcessRecord.mk 4 none,
      ProcessRecord.mk 0 none]]
    none

/-- A tick input with one matched guest that has exactly two historical
samples (30 jiffies apart), energy delta 100 and host time delta 100. -/
def topoTwoSamples : TopoState :=
  TopoState.mk (some (Record.mk 100)) (some 100)
    [[ProcessRecord.mk 50 (some [("qemu-system-x86"), ("-name"), ("guest=vmB,x")]),
      ProcessRecord.mk 20 none]]
    none

/-- A tick input with the energy delta absent but a perfectly readable
thermal zone. -/
def topoNoEnergy : TopoState :=
  TopoState.mk none (some 5) [] (some [ThermalEntry.mk ("thermal_zone0") (some 42)])

/-- C2: the claim says that when the host-wide CPU-time delta is zero the
sampler skips the contribution of the guest, never divides, and never passes a
NaN or infinite value to add_energy.  The code has no zero test: with
host time delta 0 and guest delta 5 it computes 5 / 0 = +inf and hands
that value to add_energy, which stores it in the series of the guest. -/
theorem c2_zero_host_delta_divides :
    tick_shares topoZeroT = [(("vmA"), F.posInf)]
    ∧ (iteration topoZeroT tc0).vms = [(("vmA"), [F.posInf])] := by
  decide

/-- C3: the claim says get_avg_temp is the arithmetic mean on non-empty
series and fails with a NoData condition on the empty series.  The mean
half holds, but on the empty series the code divides 0.0 by a zero count
and returns NaN instead of reporting any condition. -/
theorem c3_avg_temp_nan_on_empty :
    get_avg_temp tc0 = F.nan
    ∧ get_avg_temp (TestCase.mk ("t") [] [F.fin 1, F.fin 2, F.fin 3] 0 0 ("p")) = F.fin 2 := by
  constructor
  · rfl
  · have h1 : sumF [F.fin 1, F.fin 2, F.fin 3] = F.fin 6 := by
      show F.fin (0 + 1 + 2 + 3) = F.fin 6
      norm_num
    show F.div (sumF [F.fin 1, F.fin 2, F.fin 3]) (F.fin ((3 : ℕ) : ℚ)) = F.fin 2
    rw [h1]
    have h2 : ((3 : ℕ) : ℚ) = 3 := by norm_num
    rw [h2]
    show (if (3 : ℚ) = 0 then (if (6 : ℚ) = 0 then F.nan else if 0 < (6 : ℚ) then F.posInf else F.negInf) else F.fin (6 / 3)) = F.fin 2
    rw [if_neg (by norm_num : ¬ (3 : ℚ) = 0)]
    norm_num

/-- C4: the claim says get_test_duration returns end - start when
finalized with end at or after start, and fails with a reported
NotFinalized error otherwise.  The subtraction half holds, but when
stop_recording has not run (end stays 0 below a start of 5) the Duration
subtraction panics — an abort, modelled as none — rather than reporting
an error. -/
theorem c4_duration_underflow_panics :
    get_test_duration (TestCase.mk ("t") [] [] 5 0 ("p")) = none
    ∧ get_test_duration (TestCase.mk ("t") [] [] 2 7 ("p")) = some 5 := by
  constructor
  · show (if (5 : ℚ) ≤ 0 then some ((0 : ℚ) - 5) else none) = none
    rw [if_neg (by norm_num : ¬ (5 : ℚ) ≤ 0)]
  · show (if (2 : ℚ) ≤ 7 then some ((7 : ℚ) - 2) else none) = some 5
    rw [if_pos (by norm_num : (2 : ℚ) ≤ 7)]
    norm_num

/-- C5: the claim says get_watt_consumed_by_vm divides the guest energy
sum by the duration, and fails with a catchable UnknownGuest condition
for an unknown id.  The division half holds (10 uJ over 5 s gives 2),
but an unknown id hits unwrap() on the HashMap lookup, a
process-terminating panic modelled as none, not a reported condition. -/
theorem c5_unknown_guest_panics :
    get_watt_consumed_by_vm (TestCase.mk ("t") [(("vmA"), [F.fin 3, F.fin 7])] [] 2 7 ("p")) ("ghost") = none
    ∧ get_watt_consumed_by_vm (TestCase.mk ("t") [(("vmA"), [F.fin 3, F.fin 7])] [] 2 7 ("p")) ("vmA")
      = some (F.fin 2) := by
  constructor
  · rfl
  · have hl : lookupVm [(("vmA"), [F.fin 3, F.fin 7])] ("vmA") = some [F.fin 3, F.fin 7] := rfl
    have hd : get_test_duration (TestCase.mk ("t") [(("vmA"), [F.fin 3, F.fin 7])] [] 2 7 ("p"))
        = some 5 := by
      show (if (2 : ℚ) ≤ 7 then some ((7 : ℚ) - 2) else none) = some 5
      rw [if_pos (by norm_num : (2 : ℚ) ≤ 7)]
      norm_num
    simp only [get_watt_consumed_by_vm, hl, hd]
    have hsum : sumF [F.fin 3, F.fin 7] = F.fin 10 := by
      show F.fin (0 + 3 + 7) = F.fin 10
      norm_num
    rw [hsum]
    show some (if (5 : ℚ) = 0 then (if (10 : ℚ) = 0 then F.nan else if 0 < (10 : ℚ) then F.posInf else F.negInf) else F.fin (10 / 5)) = some (F.fin 2)
    rw [if_neg (by norm_num : ¬ (5 : ℚ) = 0)]
    norm_num

/-- C6 counterexample: a filtered guest process with exactly two
historical samples (and both deltas present) contributes nothing — the
loop guard demands strictly more than two samples — contradicting the
claim that two samples suffice for a contribution. -/
theorem c6_counterexample :
    tick_shares topoTwoSamples = [] ∧ (iteration topoTwoSamples tc0).vms = [] := by
  decide

/-- A qemu guest history with three samples, enough to pass the loop
guard of the iteration. -/
def qpThree : List ProcessRecord :=
  [ProcessRecord.mk 9 (some [("qemu-system-x86"), ("guest=w")]),
   ProcessRecord.mk 4 none,
   ProcessRecord.mk 0 none]

/-- A qemu guest history with exactly two samples. -/
def qpTwo : List ProcessRecord :=
  [ProcessRecord.mk 50 (some [("qemu-system-x86")]), ProcessRecord.mk 20 none]

/-- C6 amended: on every tick with both deltas present, the shares the
iteration adds are exactly those the loop body produces on the filtered
histories; a filtered history contributes only when it has strictly more
than two samples (at least three), and then its share is computed from
its two newest samples (name from the newest command line, delta between
the two newest jiffies counts); a history with two or fewer samples is
skipped with no contribution and no error. -/
theorem c6_three_samples_required (topo : TopoState) (r : Record) (T : Nat)
    (h1 : topo.uj_diff = some r) (h2 : topo.stat_diff = some T) :
    tick_shares topo
      = (filter_qemu_vm_processes topo.processes).filterMap (shareOf r (some T))
    ∧ (∀ qp : List ProcessRecord, 2 < qp.length →
        shareOf r (some T) qp
          = some (vmOf qp,
              F.mul (F.div (F.fin ((guestDelta qp : ℕ) : ℚ)) (F.fin ((T : ℕ) : ℚ)))
                (F.fin r.value)))
    ∧ (∀ qp : List ProcessRecord, qp.length ≤ 2 → shareOf r (some T) qp = none) := by
  refine ⟨?_, ?_, ?_⟩
  · unfold tick_shares
    rw [h1, h2]
  · intro qp hqp
    unfold shareOf
    rw [if_pos hqp]
    cases qp with
    | nil => simp at hqp
    | cons a t =>
        cases t with
        | nil => simp at hqp
        | cons b t' =>
            simp only [vmOf, guestDelta, List.headD_cons, List.drop_succ_cons, List.drop_zero]
  · intro qp hqp
    unfold shareOf
    rw [if_neg (Nat.not_lt.mpr hqp)]

/-- C6 witness: with energy delta 100 and host time delta 100, a
three-sample history produces the share built from its two newest
samples, while a two-sample history produces none. -/
theorem c6_witness :
    shareOf (Record.mk 100) (some 100) qpThree
      = some (vmOf qpThree,
          F.mul (F.div (F.fin ((guestDelta qpThree : ℕ) : ℚ)) (F.fin ((100 : ℕ) : ℚ)))
            (F.fin (Record.mk 100).value))
    ∧ shareOf (Record.mk 100) (some 100) qpTwo = none := by
  constructor
  · exact (c6_three_samples_required topoTwoSamples (Record.mk 100) 100 rfl rfl).2.1
      qpThree (by decide)
  · exact (c6_three_samples_required topoTwoSamples (Record.mk 100) 100 rfl rfl).2.2
      qpTwo (by decide)

/-- C7 amended: when the energy delta is absent the iteration does
nothing at all — no attribution and, contrary to the claim, no
temperature sample either; when the energy delta is present but the host
time delta is absent, no energy is attributed while one temperature
sample is still appended. -/
theorem c7_no_energy_no_temperature (topo : TopoState) (tc : TestCase) :
    (topo.uj_diff = none → iteration topo tc = tc)
    ∧ (∀ r : Record, topo.uj_diff = some r → topo.stat_diff = none →
        (iteration topo tc).vms = tc.vms
        ∧ (iteration topo tc).temps = tc.temps ++ [read_temp topo.temp_input]) := by
  constructor
  · intro h
    unfold iteration
    rw [h]
  · intro r h1 h2
    rw [iteration_eq_tick_shares topo r h1 tc]
    have hts : tick_shares topo = [] := by
      unfold tick_shares
      rw [h1, h2]
      exact List.filterMap_eq_nil_iff.mpr (fun a _ => shareOf_stat_none r a)
    rw [hts]
    exact ⟨rfl, rfl⟩

/-- A tick input with the energy delta present but the host time delta
absent, and a readable thermal zone. -/
def topoNoStat : TopoState :=
  TopoState.mk (some (Record.mk 7)) none [] (some [ThermalEntry.mk ("thermal_zone1") (some 42)])

/-- C7 counterexample: with the energy delta absent and a perfectly
readable thermal zone (42 degrees), the tick appends nothing to the
temperature series, contradicting the claim that temperature sampling
still happens. -/
theorem c7_counterexample :
    (iteration topoNoEnergy tc0).temps = []
    ∧ read_temp topoNoEnergy.temp_input = F.fin 42 := by
  constructor
  · rfl
  · show F.div (F.fin (0 + 42)) (F.fin ((1 : ℕ) : ℚ)) = F.fin 42
    rw [Nat.cast_one]
    have h4 : (0 + 42 : ℚ) = 42 := by norm_num
    rw [h4]
    show (if (1 : ℚ) = 0 then (if (42 : ℚ) = 0 then F.nan else if 0 < (42 : ℚ) then F.posInf else F.negInf) else F.fin (42 / 1)) = F.fin 42
    rw [if_neg (by norm_num : ¬ (1 : ℚ) = 0)]
    norm_num

/-- C7 witness: one tick with no energy delta leaves the test case
untouched, and one tick with an energy delta but no host time delta
appends exactly the temperature sample. -/
theorem c7_witness :
    iteration topoNoEnergy tc0 = tc0
    ∧ (iteration topoNoStat tc0).temps = tc0.temps ++ [read_temp topoNoStat.temp_input] := by
  constructor
  · exact (c7_no_energy_no_temperature topoNoEnergy tc0).1 rfl
  · exact ((c7_no_energy_no_temperature topoNoStat tc0).2 (Record.mk 7) rfl rfl).2

/-- C8 counterexample: a line that is neither protocol token reaches the
panic arm, which takes down the whole agent process — even though a
session-ending line is still pending, the session does not continue and
does not merely abort by itself. -/
theorem c8_counterexample :
    runSession [("bad\n"), ("finished recording\n")] = ([], Outcome.processPanic)
    ∧ Outcome.processPanic ≠ Outcome.sessionEnded := by
  decide

/-- C8 amended: in the read loop, startTestReq yields ack, one recording
window and fin and the loop continues; finished recording ends the
session normally; any other line (including the empty read at end of
stream) hits the panic arm and the whole agent process aborts. -/
theorem c8_protocol_loop (l : String) (rest : List String)
    (h1 : l ≠ "finished recording\n") (h2 : l ≠ "startTestReq\n") :
    runSession (("startTestReq\n") :: rest)
      = (Out.ack :: Out.record :: Out.fin :: (runSession rest).1, (runSession rest).2)
    ∧ runSession (("finished recording\n") :: rest) = ([], Outcome.sessionEnded)
    ∧ runSession (l :: rest) = ([], Outcome.processPanic) := by
  refine ⟨?_, ?_, ?_⟩
  · show (if ("startTestReq\n" : String) = "finished recording\n" then ([], Outcome.sessionEnded)
        else if ("startTestReq\n" : String) = "startTestReq\n" then
          (Out.ack :: Out.record :: Out.fin :: (runSession rest).1, (runSession rest).2)
        else ([], Outcome.processPanic))
      = (Out.ack :: Out.record :: Out.fin :: (runSession rest).1, (runSession rest).2)
    rw [if_neg (by decide), if_pos rfl]
  · show (if ("finished recording\n" : String) = "finished recording\n" then
          (([] : List Out), Outcome.sessionEnded)
        else if ("finished recording\n" : String) = "startTestReq\n" then
          (Out.ack :: Out.record :: Out.fin :: (runSession rest).1, (runSession rest).2)
        else ([], Outcome.processPanic))
      = (([] : List Out), Outcome.sessionEnded)
    rw [if_pos rfl]
  · show (if l = "finished recording\n" then (([] : List Out), Outcome.sessionEnded)
        else if l = "startTestReq\n" then
          (Out.ack :: Out.record :: Out.fin :: (runSession rest).1, (runSession rest).2)
        else ([], Outcome.processPanic))
      = (([] : List Out), Outcome.processPanic)
    rw [if_neg h1, if_neg h2]

/-- C8 witness: a start request followed by a session end produces ack,
one recording window, fin and a normal session end, while a noise line
panics the process. -/
theorem c8_witness :
    runSession [("startTestReq\n"), ("finished recording\n")]
      = ([Out.ack, Out.record, Out.fin], Outcome.sessionEnded)
    ∧ runSession [("noise\n")] = ([], Outcome.processPanic) := by
  constructor
  · rw [(c8_protocol_loop ("noise\n") [("finished recording\n")] (by decide) (by decide)).1]
    decide
  · exact (c8_protocol_loop ("noise\n") [] (by decide) (by decide)).2.2

/-- C9 counterexample: on the token guest=a=b,c the code returns the
piece between the first and second equals signs ("a"), while the
substring between the equals sign and the first following comma is
"a=b"; the two disagree. -/
theorem c9_counterexample :
    get_vm_name_from_cmdline [("guest=a=b,c")] = "a"
    ∧ String.mk (specClaimGuestName (("guest=a=b,c").toList)) = "a=b"
    ∧ get_vm_name_from_cmdline [("guest=a=b,c")]
      ≠ String.mk (specClaimGuestName (("guest=a=b,c").toList)) := by
  refine ⟨?_, ?_, ?_⟩ <;> decide

/-- C9 amended: the first token starting with guest= resolves to the
portion after guest= up to the first equals sign or comma, whichever
comes first (the first equals-separated field, truncated at a comma),
and a token list with no guest= token resolves to the empty string. -/
theorem c9_guest_name_parsing (pres post : List String) (rest : List Char)
    (hpre : ∀ p ∈ pres, startsW ("guest=".toList) p.toList = false) :
    get_vm_name_from_cmdline (pres ++ String.mk (("guest=".toList) ++ rest) :: post)
      = String.mk ((rest.takeWhile (fun ch => !(ch == '='))).takeWhile (fun ch => !(ch == ',')))
    ∧ ∀ toks : List String, (∀ t ∈ toks, startsW ("guest=".toList) t.toList = false) →
        get_vm_name_from_cmdline toks = "" :=
  ⟨get_vm_name_guest_token pres post rest hpre, get_vm_name_no_guest⟩

/-- C9 witness: the example given in the spec resolves to myvm, and a token
list with no guest= token resolves to the empty string. -/
theorem c9_witness :
    get_vm_name_from_cmdline [("-name"), ("guest=myvm,debug-threads=on")] = "myvm"
    ∧ get_vm_name_from_cmdline [("-name")] = "" := by
  have h := c9_guest_name_parsing [("-name")] [] (("myvm,debug-threads=on").toList) (by decide)
  constructor
  · have h1 := h.1
    have e2 : String.mk (((("myvm,debug-threads=on").toList).takeWhile
          (fun ch => !(ch == '='))).takeWhile (fun ch => !(ch == ','))) = "myvm" := by decide
    rw [e2] at h1
    exact h1
  · exact h.2 [("-name")] (by decide)

/-- C10: when the thermal directory is enumerable but every entry is a
cooling device or has an unreadable temp file, read_temp divides 0.0 by
a zero count and returns NaN — not the zero fallback — and a tick whose
energy delta is present appends that NaN to the temperature series; the
zero fallback is returned exactly when the directory cannot be
enumerated. -/
theorem c10_all_zones_skipped_nan (entries : List ThermalEntry)
    (h : ∀ e ∈ entries, containsSub ("cooling".toList) e.name.toList = true ∨ e.temp = none) :
    read_temp (some entries) = F.nan
    ∧ F.nan ≠ F.fin 0
    ∧ read_temp (none : Option (List ThermalEntry)) = F.fin 0
    ∧ ∀ (topo : TopoState) (r : Record) (tc : TestCase),
        topo.uj_diff = some r → topo.temp_input = some entries →
        (iteration topo tc).temps = tc.temps ++ [F.nan] := by
  have hnan : read_temp (some entries) = F.nan := by
    show F.div (F.fin (entries.foldl readTempStep (0, 0)).1)
        (F.fin (((entries.foldl readTempStep (0, 0)).2 : ℕ) : ℚ)) = F.nan
    rw [foldl_readTempStep_skip entries (0, 0) h]
    rfl
  refine ⟨hnan, by decide, rfl, ?_⟩
  intro topo r tc h1 h2
  rw [iteration_eq_tick_shares topo r h1 tc]
  show ((tick_shares topo).foldl (fun acc s => add_energy acc s.1 s.2) tc).temps
      ++ [read_temp topo.temp_input] = tc.temps ++ [F.nan]
  rw [foldl_add_energy_temps, h2, hnan]

/-- The thermal directory content with only a cooling device and an
unreadable zone: zero successful readings. -/
def entriesAllSkipped : List ThermalEntry :=
  [ThermalEntry.mk ("cooling_device0") (some 40), ThermalEntry.mk ("thermal_zone0") none]

/-- A tick input whose energy delta is present and whose thermal
directory yields zero successful readings. -/
def topoNanTemp : TopoState :=
  TopoState.mk (some (Record.mk 7)) none [] (some entriesAllSkipped)

/-- C10 witness: with a cooling device and an unreadable zone, read_temp
returns NaN and the tick appends NaN to the temperature series. -/
theorem c10_witness :
    read_temp (some entriesAllSkipped) = F.nan
    ∧ (iteration topoNanTemp tc0).temps = tc0.temps ++ [F.nan] := by
  have h := c10_all_zones_skipped_nan entriesAllSkipped (by decide)
  exact ⟨h.1, h.2.2.2 topoNanTemp (Record.mk 7) tc0 rfl rfl⟩

/-- C1: on a tick with successful attribution (both deltas present, host
time delta positive), given the physical side conditions the claim
presumes — a nonnegative energy delta, and the matched guest CPU-time
deltas collectively not exceeding the host CPU-time delta — every share
the iteration hands to add_energy equals
(guest time delta / host time delta) * host energy delta, only the
contributing guest histories receive anything (unmatched host CPU time
is assigned to nobody), and the shares of the tick sum to a finite value
at most the host energy delta. -/
theorem c1_shares_sum_bounded (topo : TopoState) (r : Record) (T : Nat)
    (h1 : topo.uj_diff = some r) (h2 : topo.stat_diff = some T)
    (hT : 0 < T) (hE : 0 ≤ r.value)
    (hsum : ((contributors topo).map guestDelta).sum ≤ T) :
    tick_shares topo
      = (contributors topo).map
          (fun qp => (vmOf qp, F.fin ((guestDelta qp : ℚ) / (T : ℚ) * r.value)))
    ∧ (∃ s : ℚ, sumF ((tick_shares topo).map Prod.snd) = F.fin s ∧ s ≤ r.value)
    ∧ ∀ tc : TestCase,
        iteration topo tc
          = add_temp_measurement
              ((tick_shares topo).foldl (fun acc s => add_energy acc s.1 s.2) tc)
              (read_temp topo.temp_input) := by
  have hTQ : (T : ℚ) ≠ 0 := Nat.cast_ne_zero.mpr (Nat.pos_iff_ne_zero.mp hT)
  have hmain : tick_shares topo
      = (contributors topo).map
          (fun qp => (vmOf qp, F.fin ((guestDelta qp : ℚ) / (T : ℚ) * r.value))) := by
    unfold tick_shares contributors
    rw [h1, h2]
    exact filterMap_shareOf r T hTQ (filter_qemu_vm_processes topo.processes)
  refine ⟨hmain, ?_, fun tc => iteration_eq_tick_shares topo r h1 tc⟩
  have hsnd : (tick_shares topo).map Prod.snd
      = (((contributors topo).map guestDelta).map
          (fun p : ℕ => (p : ℚ) / (T : ℚ) * r.value)).map F.fin := by
    rw [hmain, List.map_map, List.map_map, List.map_map]
    rfl
  refine ⟨(((contributors topo).map guestDelta).sum : ℚ) / (T : ℚ) * r.value, ?_, ?_⟩
  · rw [hsnd]
    unfold sumF
    rw [foldl_add_fin, zero_add, sum_map_div_mul]
  · apply div_mul_le_of_le
    · exact_mod_cast hT
    · exact hE
    · exact_mod_cast hsum

/-- The attribution test vector given in the spec: energy delta 100000 uJ, host
time delta 100 jiffies, guest A delta 30, guest B delta 70 (each history
long enough to pass the loop guard). -/
def topoSpecVector : TopoState :=
  TopoState.mk (some (Record.mk 100000)) (some 100)
    [[ProcessRecord.mk 130 (some [("qemu-system-x86"), ("-name"), ("guest=guestA")]),
      ProcessRecord.mk 100 (some []),
      ProcessRecord.mk 0 none],
     [ProcessRecord.mk 270 (some [("qemu-system-x86"), ("-name"), ("guest=guestB")]),
      ProcessRecord.mk 200 none,
      ProcessRecord.mk 0 none]]
    none

/-- C1 witness: on the spec test vector the shares of the tick sum to a
finite value bounded by the 100000 uJ energy delta. -/
theorem c1_witness :
    ∃ s : ℚ, sumF ((tick_shares topoSpecVector).map Prod.snd) = F.fin s
      ∧ s ≤ (Record.mk 100000).value :=
  (c1_shares_sum_bounded topoSpecVector (Record.mk 100000) 100 rfl rfl
    (by decide) (by norm_num) (by decide)).2.1
